import Mathlib

/-!
Verification of the gustasum partial-checksum tool (src/main.rs).

Model: bytes are `Nat` values < 256, file contents are `List Nat`, paths are
either raw character lists (record lines) or component lists (PathBuf).
Machine integers (u64, u32) are `Nat` with explicit `% 2^w` where the source
wraps. The SHA-256 compression used by the `sha2` crate is implemented
directly so that digests evaluate on concrete inputs.
-/

namespace Gustasum

/-! ### SHA-256 (the `sha2` crate's `Sha256`, FIPS 180-4) -/

/-- 2^32, the word modulus for SHA-256 arithmetic. -/
def M32 : Nat := 4294967296

/-- Right rotation of a 32-bit word. -/
def rotr (n w : Nat) : Nat := ((w >>> n) ||| (w <<< (32 - n))) % M32

def smallSigma0 (x : Nat) : Nat := (rotr 7 x) ^^^ (rotr 18 x) ^^^ (x >>> 3)

def smallSigma1 (x : Nat) : Nat := (rotr 17 x) ^^^ (rotr 19 x) ^^^ (x >>> 10)

def bigSigma0 (x : Nat) : Nat := (rotr 2 x) ^^^ (rotr 13 x) ^^^ (rotr 22 x)

def bigSigma1 (x : Nat) : Nat := (rotr 6 x) ^^^ (rotr 11 x) ^^^ (rotr 25 x)

def chFn (x y z : Nat) : Nat := (x &&& y) ^^^ ((x ^^^ 4294967295) &&& z)

def majFn (x y z : Nat) : Nat := (x &&& y) ^^^ (x &&& z) ^^^ (y &&& z)

/-- The 64 SHA-256 round constants. -/
def K256 : List Nat :=
  [1116352408, 1899447441, 3049323471, 3921009573, 961987163, 1508970993,
   2453635748, 2870763221, 3624381080, 310598401, 607225278, 1426881987,
   1925078388, 2162078206, 2614888103, 3248222580, 3835390401, 4022224774,
   264347078, 604807628, 770255983, 1249150122, 1555081692, 1996064986,
   2554220882, 2821834349, 2952996808, 3210313671, 3336571891, 3584528711,
   113926993, 338241895, 666307205, 773529912, 1294757372, 1396182291,
   1695183700, 1986661051, 2177026350, 2456956037, 2730485921, 2820302411,
   3259730800, 3345764771, 3516065817, 3600352804, 4094571909, 275423344,
   430227734, 506948616, 659060556, 883997877, 958139571, 1322822218,
   1537002063, 1747873779, 1955562222, 2024104815, 2227730452, 2361852424,
   2428436474, 2756734187, 3204031479, 3329325298]

/-- The initial SHA-256 hash state. -/
def H0 : List Nat :=
  [1779033703, 3144134277, 1013904242, 2773480762, 1359893119, 2600822924,
   528734635, 1541459225]

/-- Big-endian grouping of bytes into 32-bit words. -/
def toWords : List Nat → List Nat
  | a :: b :: c :: d :: rest => (((a * 256 + b) * 256 + c) * 256 + d) :: toWords rest
  | _ => []

/-- Message-schedule extension: prepend `n` more words to the reversed word
list (latest word first). -/
def extendLoop : Nat → List Nat → List Nat
  | 0, acc => acc
  | n + 1, acc =>
    let w15 := acc.getD 14 0
    let w2 := acc.getD 1 0
    let w7 := acc.getD 6 0
    let w16 := acc.getD 15 0
    extendLoop n (((w16 + smallSigma0 w15 + w7 + smallSigma1 w2) % M32) :: acc)

/-- The 64-entry message schedule of one 16-word block. -/
def schedule (ws : List Nat) : List Nat :=
  (extendLoop 48 ws.reverse).reverse

/-- One round of the SHA-256 compression function on the 8-word state. -/
def roundStep (st : List Nat) (kw : Nat × Nat) : List Nat :=
  match st with
  | [a, b, c, d, e, f, g, h] =>
    let t1 := (h + bigSigma1 e + chFn e f g + kw.1 + kw.2) % M32
    let t2 := (bigSigma0 a + majFn a b c) % M32
    [(t1 + t2) % M32, a, b, c, (d + t1) % M32, e, f, g]
  | other => other

/-- Compress one 64-byte block into the hash state. -/
def compressBlock (st : List Nat) (block : List Nat) : List Nat :=
  let ws := schedule (toWords block)
  let fin := (K256.zip ws).foldl roundStep st
  (st.zip fin).map (fun p => (p.1 + p.2) % M32)

/-- Big-endian 8-byte encoding of a 64-bit value. -/
def be64 (n : Nat) : List Nat :=
  [n >>> 56 % 256, n >>> 48 % 256, n >>> 40 % 256, n >>> 32 % 256,
   n >>> 24 % 256, n >>> 16 % 256, n >>> 8 % 256, n % 256]

/-- SHA-256 padding: append 0x80, zeros, and the bit length (big-endian). -/
def padMsg (msg : List Nat) : List Nat :=
  let len := msg.length
  let zeros := (64 - (len + 9) % 64) % 64
  msg ++ 128 :: List.replicate zeros 0 ++ be64 ((len * 8) % 18446744073709551616)

/-- Split a padded message into its 64-byte blocks. -/
def blocksOf (l : List Nat) : List (List Nat) :=
  (List.range (l.length / 64)).map (fun i => (l.drop (64 * i)).take 64)

/-- Fold the padded message, 64 bytes at a time, through the compression. -/
def processBlocks (st : List Nat) (l : List Nat) : List Nat :=
  (blocksOf l).foldl compressBlock st

/-- SHA-256 of a byte list, as the 32-byte digest. -/
def sha256 (msg : List Nat) : List Nat :=
  (processBlocks H0 (padMsg msg)).flatMap (fun w =>
    [w >>> 24 % 256, w >>> 16 % 256, w >>> 8 % 256, w % 256])

/-- Lowercase hex digit. -/
def hexChar (n : Nat) : Char :=
  if n < 10 then Char.ofNat (48 + n) else Char.ofNat (87 + n)

/-- Lowercase hex rendering of a byte list, as Rust's LowerHex formatting
of a digest. -/
def hexOfBytes (bs : List Nat) : String :=
  String.mk (bs.flatMap (fun b => [hexChar (b / 16 % 16), hexChar (b % 16)]))

/-- SHA-256 of a byte list as a lowercase hex string. -/
def sha256hex (msg : List Nat) : String := hexOfBytes (sha256 msg)

/-! ### File sampling and digest (`do_compute_hash_for_file`) -/

/-- 2^64, the u64 modulus. -/
def U64 : Nat := 18446744073709551616

/-- Little-endian 8-byte encoding of a u64 (Rust `u64::to_le_bytes`). -/
def u64le (n : Nat) : List Nat :=
  [n % 256, n >>> 8 % 256, n >>> 16 % 256, n >>> 24 % 256,
   n >>> 32 % 256, n >>> 40 % 256, n >>> 48 % 256, n >>> 56 % 256]

/-- The data sampled from one file: size, (possibly zeroed) modification
time, and the three byte windows. -/
structure FileSample where
  mod_time_secs : Nat
  size : Nat
  first : List Nat
  middle : List Nat
  last : List Nat
deriving DecidableEq

/-- The sampling phase of `do_compute_hash_for_file` on a file with the given
content bytes and modification time (seconds since epoch, a u64).  A read at
offset `off` returns `min partial_bytes (size - off)` bytes, the success case
of `BufReader::read` after `seek`; `read` then `truncate` is `take`; the
`size.saturating_sub` is Nat subtraction. -/
def sampleFile (content : List Nat) (modTime : Nat) (partial_bytes : Nat)
    (include_modtime : Bool) : FileSample :=
  let size := content.length
  let mod_time_secs := if include_modtime then modTime % U64 else 0
  let first := content.take partial_bytes
  let middle :=
    if size > partial_bytes * 2 then (content.drop (size / 2)).take partial_bytes
    else []
  let last :=
    if size > partial_bytes then (content.drop (size - partial_bytes)).take partial_bytes
    else []
  ⟨mod_time_secs, size, first, middle, last⟩

/-- The hasher-update sequence of `do_compute_hash_for_file`: mod time LE,
size LE, then the three windows. -/
def foldBytes (s : FileSample) : List Nat :=
  u64le s.mod_time_secs ++ u64le s.size ++ s.first ++ s.middle ++ s.last

/-- `do_compute_hash_for_file` on the success path: sample, fold, hash,
render lowercase hex. -/
def do_compute_hash_for_file (content : List Nat) (modTime : Nat)
    (partial_bytes : Nat) (include_modtime : Bool) : String :=
  sha256hex (foldBytes (sampleFile content modTime partial_bytes include_modtime))

/-- The bytes of `b"hello world"`. -/
def helloWorldBytes : List Nat :=
  [104, 101, 108, 108, 111, 32, 119, 111, 114, 108, 100]

/-! ### Error classification and the retry loop (`compute_hash_for_file`) -/

/-- The failure points of `do_compute_hash_for_file`, each carrying the
underlying OS error message; `renderError` produces exactly the strings the
source builds with `format!`. -/
inductive HashError where
  | metadataErr (msg : String)
  | openErr (msg : String)
  | readErr (stage : String) (msg : String)
  | seekErr (stage : String) (msg : String)
deriving DecidableEq

/-- The error strings of `do_compute_hash_for_file`: "metadata error: ...",
"file open error: ...", "read error (stage): ...", "seek error (stage): ...". -/
def renderError : HashError → String
  | .metadataErr m => "metadata error: " ++ m
  | .openErr m => "file open error: " ++ m
  | .readErr stage m => "read error (" ++ stage ++ "): " ++ m
  | .seekErr stage m => "seek error (" ++ stage ++ "): " ++ m

/-- Does `hay` begin with `needle`? -/
def beginsWith : List Char → List Char → Bool
  | _, [] => true
  | [], _ :: _ => false
  | a :: as, b :: bs => a == b && beginsWith as bs

/-- Rust `str::contains` with a string pattern, on character lists. -/
def containsSub : List Char → List Char → Bool
  | [], needle => needle.isEmpty
  | a :: rest, needle => beginsWith (a :: rest) needle || containsSub rest needle

/-- `is_transient_read_error`: substring test on the rendered error string. -/
def is_transient_read_error (err : String) : Bool :=
  containsSub err.toList "read error".toList
    || containsSub err.toList "I/O error".toList
    || containsSub err.toList "EIO".toList

/-- `READ_RETRIES`: the number of extra attempts after the first failure. -/
def READ_RETRIES : Nat := 2

/-- The retry loop of `compute_hash_for_file`.  I/O is abstracted as
`outcomes n`, the result of the n-th call to `do_compute_hash_for_file`;
the pair returned is (number of attempts made, final result).  The source
retries while `attempts <= READ_RETRIES` and the error is transient, which
is exactly a countdown from `READ_RETRIES` remaining retries. -/
def retryLoop (outcomes : Nat → Except HashError String) :
    Nat → Nat → Nat × Except HashError String
  | attempt, retriesLeft =>
    match outcomes attempt with
    | .ok h => (attempt, .ok h)
    | .error e =>
      match retriesLeft with
      | 0 => (attempt, .error e)
      | n + 1 =>
        if is_transient_read_error (renderError e) then
          retryLoop outcomes (attempt + 1) n
        else (attempt, .error e)

/-- `compute_hash_for_file` as a function of its attempt outcomes. -/
def compute_hash_for_file (outcomes : Nat → Except HashError String) :
    Nat × Except HashError String :=
  retryLoop outcomes 1 READ_RETRIES

/-! ### Record parsing (`split_line`) -/

/-- Index of the first occurrence of two consecutive spaces
(Rust `line.find "  "` on character lists). -/
def findTwoSpaces : List Char → Option Nat
  | a :: b :: rest =>
    if a = ' ' ∧ b = ' ' then some 0
    else (findTwoSpaces (b :: rest)).map (· + 1)
  | _ => none

/-- `split_line`: split at the first double space; the text before it is
the digest, the text after the two separator characters is the path. -/
def split_line (l : List Char) : Option (List Char × List Char) :=
  match findTwoSpaces l with
  | some idx => some (l.take idx, (l.drop idx).drop 2)
  | none => none

/-- Two consecutive space characters occur at position `i` of `l`. -/
def twoSpacesAt (l : List Char) (i : Nat) : Prop :=
  l[i]? = some ' ' ∧ l[i + 1]? = some ' '

/-! ### Path remapping (`remap_path`) -/

/-- Rust `Path::starts_with`: component-wise prefix test (paths are modeled
as their component lists). -/
def path_starts_with : List String → List String → Bool
  | _, [] => true
  | [], _ :: _ => false
  | a :: as, b :: bs => a == b && path_starts_with as bs

/-- `remap_path`: if `original` starts with `old_base`, join the remaining
components (`strip_prefix`) onto `new_base`; otherwise return it unchanged. -/
def remap_path (original old_base new_base : List String) : List String :=
  if path_starts_with original old_base then
    new_base ++ original.drop old_base.length
  else original

/-- The remap guard in `verify_mode`: `remap_path` runs only when both
bases were supplied on the command line. -/
def remapOpt (old_base new_base : Option (List String)) (p : List String) :
    List String :=
  match old_base, new_base with
  | some ob, some nb => remap_path p ob nb
  | _, _ => p

/-! ### The verify-mode per-line closure -/

/-- One work item of `verify_mode`: parse the line; when well-formed, remap
and hash — `hashFn` stands for `compute_hash_for_file` applied to the
remapped path, the only file I/O in the closure.  Returns
(expected digest, reported string, hash result) exactly as the source. -/
def processLine (hashFn : List Char → Except String String) (l : List Char) :
    List Char × List Char × Except String String :=
  match split_line l with
  | none => ([], l, Except.error "Malformed line")
  | some (expected, fileStr) => (expected, fileStr, hashFn fileStr)

/-- Does one verify result count toward `fail_count`?  An error always
does; a computed hash does exactly when it differs from the expected one. -/
def countsAsFailed (expected : List Char) (res : Except String String) : Bool :=
  match res with
  | .ok actual => ! (actual.toList == expected)
  | .error _ => true

/-! ### Verify-mode line preprocessing -/

/-- Rust `char::is_whitespace`: the Unicode White_Space property. -/
def isRustWhitespace (c : Char) : Bool :=
  c.toNat = 9 || c.toNat = 10 || c.toNat = 11 || c.toNat = 12 || c.toNat = 13
    || c.toNat = 32 || c.toNat = 133 || c.toNat = 160 || c.toNat = 5760
    || (8192 ≤ c.toNat && c.toNat ≤ 8202) || c.toNat = 8232 || c.toNat = 8233
    || c.toNat = 8239 || c.toNat = 8287 || c.toNat = 12288

/-- Rust `str::trim` on character lists. -/
def rustTrim (l : List Char) : List Char :=
  ((l.dropWhile isRustWhitespace).reverse.dropWhile isRustWhitespace).reverse

/-- The line preprocessing of `verify_mode`: trim every line, then discard
the ones that are empty. -/
def preprocessLines (raw : List (List Char)) : List (List Char) :=
  (raw.map rustTrim).filter (fun l => !l.isEmpty)

/-! ### The parallel executor (rayon `par_extend` of an indexed map) -/

/-- One completion event: the worker that finished item `i` writes
`f items[i]` at index `i` of the pre-sized result buffer. -/
def scatterStep {α β : Type} (items : List α) (f : α → β)
    (buf : List (Option β)) (i : Nat) : List (Option β) :=
  match items[i]? with
  | some a => buf.set i (some (f a))
  | none => buf

/-- `results.par_extend(items.par_iter().map(f))` with an arbitrary
completion schedule `order`: each result lands at its own item's index,
whatever order workers finish in. -/
def parRun {α β : Type} (items : List α) (f : α → β) (order : List Nat) :
    List (Option β) :=
  order.foldl (scatterStep items f) (List.replicate items.length none)

/-! ### Sanity vector and field equations -/

/-- FIPS 180-4 test vector: sanity check of the SHA-256 model. -/
theorem sha256hex_abc :
    sha256hex [97, 98, 99] =
      "ba7816bf8f01cfea414140de5dae2223b00361a396177a9cb410ff61f20015ad" := by
  decide

theorem sampleFile_mod_time (content : List Nat) (modTime pb : Nat) (incl : Bool) :
    (sampleFile content modTime pb incl).mod_time_secs =
      if incl then modTime % U64 else 0 := rfl

theorem sampleFile_size (content : List Nat) (modTime pb : Nat) (incl : Bool) :
    (sampleFile content modTime pb incl).size = content.length := rfl

theorem sampleFile_first (content : List Nat) (modTime pb : Nat) (incl : Bool) :
    (sampleFile content modTime pb incl).first = content.take pb := rfl

theorem sampleFile_middle (content : List Nat) (modTime pb : Nat) (incl : Bool) :
    (sampleFile content modTime pb incl).middle =
      if content.length > pb * 2 then (content.drop (content.length / 2)).take pb
      else [] := rfl

theorem sampleFile_last (content : List Nat) (modTime pb : Nat) (incl : Bool) :
    (sampleFile content modTime pb incl).last =
      if content.length > pb then (content.drop (content.length - pb)).take pb
      else [] := rfl

/-- The 8-byte little-endian encoding determines the value modulo 2^64. -/
theorem u64le_mod_inj {a b : Nat} (h : u64le a = u64le b) : a % U64 = b % U64 := by
  simp only [u64le, List.cons.injEq, and_true] at h
  obtain ⟨h0, h1, h2, h3, h4, h5, h6, h7⟩ := h
  simp only [Nat.shiftRight_eq_div_pow] at h1 h2 h3 h4 h5 h6 h7
  simp only [U64]
  omega

/-! ### C1: digest layout -/

/-- C1: the digest is the lowercase-hex SHA-256 of the byte sequence
mod_time_secs LE8, size LE8, first, middle, last; in particular, for the
11-byte file b"hello world" with partial_bytes = 100 and
include_modtime = false, the digest is SHA-256 over
[0u64 LE][11u64 LE][b"hello world"] (checked against the reference value). -/
theorem c1_digest_layout :
    (∀ content modTime pb incl,
        do_compute_hash_for_file content modTime pb incl =
          sha256hex (u64le (sampleFile content modTime pb incl).mod_time_secs ++
            u64le (sampleFile content modTime pb incl).size ++
            (sampleFile content modTime pb incl).first ++
            (sampleFile content modTime pb incl).middle ++
            (sampleFile content modTime pb incl).last))
    ∧ do_compute_hash_for_file helloWorldBytes 0 100 false =
        sha256hex (u64le 0 ++ u64le 11 ++ helloWorldBytes)
    ∧ do_compute_hash_for_file helloWorldBytes 0 100 false =
        "6b2f88896e9ae57535340a20d5a378575a86c9f331985b716232ca9da95d7f59" := by
  exact ⟨fun content modTime pb incl => rfl, by decide, by decide⟩

/-! ### C3: window invariants -/

/-- C3: every window has length at most partial_bytes; `middle` is empty
unless size > 2 * partial_bytes and otherwise reads from offset size / 2;
`last` is empty unless size > partial_bytes and otherwise reads from offset
size - partial_bytes. -/
theorem c3_window_invariants (content : List Nat) (modTime partial_bytes : Nat)
    (incl : Bool) :
    ((sampleFile content modTime partial_bytes incl).first.length ≤ partial_bytes
      ∧ (sampleFile content modTime partial_bytes incl).middle.length ≤ partial_bytes
      ∧ (sampleFile content modTime partial_bytes incl).last.length ≤ partial_bytes)
    ∧ (¬ content.length > 2 * partial_bytes →
        (sampleFile content modTime partial_bytes incl).middle = [])
    ∧ (content.length > 2 * partial_bytes →
        ∀ i : Nat, ((sampleFile content modTime partial_bytes incl).middle)[i]? =
          if i < partial_bytes then content[content.length / 2 + i]? else none)
    ∧ (¬ content.length > partial_bytes →
        (sampleFile content modTime partial_bytes incl).last = [])
    ∧ (content.length > partial_bytes →
        ∀ i : Nat, ((sampleFile content modTime partial_bytes incl).last)[i]? =
          if i < partial_bytes then content[(content.length - partial_bytes) + i]? else none) := by
  refine ⟨⟨?_, ?_, ?_⟩, ?_, ?_, ?_, ?_⟩
  · rw [sampleFile_first]; exact List.length_take_le _ _
  · rw [sampleFile_middle]; split
    · exact List.length_take_le _ _
    · simp
  · rw [sampleFile_last]; split
    · exact List.length_take_le _ _
    · simp
  · intro h; rw [sampleFile_middle, if_neg (by omega)]
  · intro h i; rw [sampleFile_middle, if_pos (by omega), List.getElem?_take,
      List.getElem?_drop]
  · intro h; rw [sampleFile_last, if_neg (by omega)]
  · intro h i; rw [sampleFile_last, if_pos (by omega), List.getElem?_take,
      List.getElem?_drop]

/-- Witness for C3 at concrete inputs: a 1-byte file with partial_bytes = 3
has empty middle and last windows; a 5-byte file with partial_bytes = 2
reads middle from offset 2 and last from offset 3. -/
theorem c3_window_invariants_witness :
    ((sampleFile [9] 0 3 false).middle = [])
    ∧ ((sampleFile [9] 0 3 false).last = [])
    ∧ (∀ i : Nat, ((sampleFile [10, 20, 30, 40, 50] 0 2 true).middle)[i]? =
        if i < 2 then [10, 20, 30, 40, 50][[10, 20, 30, 40, 50].length / 2 + i]? else none)
    ∧ (∀ i : Nat, ((sampleFile [10, 20, 30, 40, 50] 0 2 true).last)[i]? =
        if i < 2 then [10, 20, 30, 40, 50][([10, 20, 30, 40, 50].length - 2) + i]? else none) :=
  ⟨(c3_window_invariants [9] 0 3 false).2.1 (by decide),
   (c3_window_invariants [9] 0 3 false).2.2.2.1 (by decide),
   (c3_window_invariants [10, 20, 30, 40, 50] 0 2 true).2.2.1 (by decide),
   (c3_window_invariants [10, 20, 30, 40, 50] 0 2 true).2.2.2.2 (by decide)⟩

/-! ### C9: small-file collapse -/

/-- C9: for a file whose size is at most partial_bytes, the middle and last
windows are empty and the first window is the whole content. -/
theorem c9_small_file_collapse (content : List Nat) (modTime partial_bytes : Nat)
    (incl : Bool) (h : content.length ≤ partial_bytes) :
    (sampleFile content modTime partial_bytes incl).middle = []
      ∧ (sampleFile content modTime partial_bytes incl).last = []
      ∧ (sampleFile content modTime partial_bytes incl).first = content := by
  refine ⟨?_, ?_, ?_⟩
  · rw [sampleFile_middle, if_neg (by omega)]
  · rw [sampleFile_last, if_neg (by omega)]
  · rw [sampleFile_first]; exact List.take_of_length_le h

/-- Witness for C9: a 2-byte file sampled with partial_bytes = 3. -/
theorem c9_small_file_collapse_witness :
    [5, 6].length ≤ 3
      ∧ ((sampleFile [5, 6] 7 3 true).middle = []
        ∧ (sampleFile [5, 6] 7 3 true).last = []
        ∧ (sampleFile [5, 6] 7 3 true).first = [5, 6]) :=
  ⟨by decide, c9_small_file_collapse [5, 6] 7 3 true (by decide)⟩

/-! ### C8: the modtime toggle -/

/-- C8: with include_modtime = false the digest ignores the modification
time entirely; with include_modtime = true, distinct 64-bit modification
times yield distinct hashed byte sequences (shown for all pairs) and
distinct digests (checked at a concrete pair of files differing only in
modification time). -/
theorem c8_modtime_toggle :
    (∀ content mt mt2 pb,
        do_compute_hash_for_file content mt pb false =
          do_compute_hash_for_file content mt2 pb false)
    ∧ (∀ content mt mt2 pb, mt % U64 ≠ mt2 % U64 →
        foldBytes (sampleFile content mt pb true) ≠
          foldBytes (sampleFile content mt2 pb true))
    ∧ do_compute_hash_for_file helloWorldBytes 1 100 true ≠
        do_compute_hash_for_file helloWorldBytes 2 100 true := by
  refine ⟨fun content mt mt2 pb => rfl, ?_, by decide⟩
  intro content mt mt2 pb hne heq
  apply hne
  simp only [foldBytes, sampleFile, if_pos, List.append_assoc] at heq
  have h1 : u64le (mt % U64) = u64le (mt2 % U64) :=
    List.append_inj_left heq rfl
  have h2 := u64le_mod_inj h1
  simp only [U64] at h2 ⊢
  omega

/-- Witness for C8 at modification times 1 and 2 on b"hello world". -/
theorem c8_modtime_toggle_witness :
    (1 : Nat) % U64 ≠ (2 : Nat) % U64
      ∧ foldBytes (sampleFile helloWorldBytes 1 100 true) ≠
          foldBytes (sampleFile helloWorldBytes 2 100 true) :=
  ⟨by decide, c8_modtime_toggle.2.1 helloWorldBytes 1 2 100 (by decide)⟩

/-! ### C2: retry policy -/

theorem beginsWith_append_self (needle rest : List Char) :
    beginsWith (needle ++ rest) needle = true := by
  induction needle with
  | nil =>
    rw [List.nil_append]
    cases rest with
    | nil => rfl
    | cons c cs => rfl
  | cons a as ih => simp [beginsWith, ih]

theorem containsSub_of_beginsWith {hay needle : List Char}
    (h : beginsWith hay needle = true) : containsSub hay needle = true := by
  cases hay with
  | nil =>
    cases needle with
    | nil => rfl
    | cons b bs => exact absurd h (by simp [beginsWith])
  | cons a rest => simp [containsSub, h]

/-- Every read-stage error message contains the substring "read error". -/
theorem readErr_is_transient (stage m : String) :
    is_transient_read_error (renderError (.readErr stage m)) = true := by
  have hdata : (renderError (HashError.readErr stage m)).toList =
      "read error".toList ++
        (' ' :: '(' :: (stage.toList ++ (')' :: ':' :: ' ' :: m.toList))) := by
    simp [renderError, String.toList]
  rw [is_transient_read_error, hdata,
    containsSub_of_beginsWith (beginsWith_append_self _ _)]
  rfl

/-- C2 counterexample: a seek failure with the ordinary Linux message for
EINVAL renders as "seek error (middle): Invalid argument (os error 22)",
which contains none of "read error", "I/O error", "EIO"; the computation
returns it after a single attempt instead of retrying, refuting the claim
that seek errors are retried to 3 total attempts. -/
theorem c2_seek_error_not_retried :
    is_transient_read_error
        (renderError (.seekErr "middle" "Invalid argument (os error 22)")) = false
    ∧ compute_hash_for_file
        (fun _ => Except.error (.seekErr "middle" "Invalid argument (os error 22)")) =
      (1, Except.error (.seekErr "middle" "Invalid argument (os error 22)"))
    ∧ ¬ (∀ outcomes : Nat → Except HashError String,
          (∀ n, ∃ stage m, outcomes n = Except.error (.seekErr stage m)) →
          (compute_hash_for_file outcomes).1 = 3) := by
  refine ⟨by decide, rfl, fun h => ?_⟩
  have h1 := h
    (fun _ => Except.error (.seekErr "middle" "Invalid argument (os error 22)"))
    (fun n => ⟨"middle", "Invalid argument (os error 22)", rfl⟩)
  have h2 : (compute_hash_for_file
      (fun _ => Except.error
        (.seekErr "middle" "Invalid argument (os error 22)"))).1 = 1 := rfl
  omega

/-- C2 (amended): a failure is retried exactly when its rendered message
contains "read error", "I/O error" or "EIO"; read-stage errors always do,
so persistent transient failures use 3 total attempts and the last error is
returned, a transient failure followed by success returns the success on
the next attempt, and any non-transient failure (metadata, open, and seek
errors with ordinary OS messages) is returned on the first attempt with no
retry. -/
theorem c2_retry_policy :
    (∀ outcomes : Nat → Except HashError String,
      (∀ n, 1 ≤ n → n ≤ 3 → ∃ e, outcomes n = Except.error e
          ∧ is_transient_read_error (renderError e) = true) →
      compute_hash_for_file outcomes = (3, outcomes 3))
    ∧ (∀ stage m, is_transient_read_error (renderError (.readErr stage m)) = true)
    ∧ (∀ outcomes : Nat → Except HashError String, ∀ e,
        outcomes 1 = Except.error e →
        is_transient_read_error (renderError e) = false →
        compute_hash_for_file outcomes = (1, Except.error e))
    ∧ (∀ outcomes : Nat → Except HashError String, ∀ e h,
        outcomes 1 = Except.error e →
        is_transient_read_error (renderError e) = true →
        outcomes 2 = Except.ok h →
        compute_hash_for_file outcomes = (2, Except.ok h))
    ∧ (∀ outcomes : Nat → Except HashError String, ∀ h,
        outcomes 1 = Except.ok h →
        compute_hash_for_file outcomes = (1, Except.ok h)) := by
  refine ⟨?_, readErr_is_transient, ?_, ?_, ?_⟩
  · intro outcomes hall
    obtain ⟨e1, he1, ht1⟩ := hall 1 (by omega) (by omega)
    obtain ⟨e2, he2, ht2⟩ := hall 2 (by omega) (by omega)
    obtain ⟨e3, he3, ht3⟩ := hall 3 (by omega) (by omega)
    simp [compute_hash_for_file, READ_RETRIES, retryLoop, he1, ht1, he2, ht2, he3, ht3]
  · intro outcomes e he ht
    simp [compute_hash_for_file, READ_RETRIES, retryLoop, he, ht]
  · intro outcomes e h he ht hok
    simp [compute_hash_for_file, READ_RETRIES, retryLoop, he, ht, hok]
  · intro outcomes h hok
    simp [compute_hash_for_file, READ_RETRIES, retryLoop, hok]

/-- Witness for C2 (amended) at concrete attempt sequences: three persistent
read errors, a metadata error, a read error followed by success, and an
immediate success. -/
theorem c2_retry_policy_witness :
    compute_hash_for_file
        (fun _ => Except.error (.readErr "first bytes" "boom")) =
      (3, Except.error (.readErr "first bytes" "boom"))
    ∧ is_transient_read_error (renderError (.readErr "middle bytes" "x")) = true
    ∧ compute_hash_for_file (fun _ => Except.error (.metadataErr "denied")) =
        (1, Except.error (.metadataErr "denied"))
    ∧ compute_hash_for_file
        (fun n => if n = 1 then Except.error (.readErr "middle bytes" "flaky")
          else Except.ok "digest") =
        (2, Except.ok "digest")
    ∧ compute_hash_for_file (fun _ => Except.ok "digest") = (1, Except.ok "digest") :=
  ⟨c2_retry_policy.1 (fun _ => Except.error (.readErr "first bytes" "boom"))
      (fun n h1 h3 => ⟨.readErr "first bytes" "boom", rfl, by decide⟩),
   c2_retry_policy.2.1 "middle bytes" "x",
   c2_retry_policy.2.2.1 (fun _ => Except.error (.metadataErr "denied"))
      (.metadataErr "denied") rfl (by decide),
   c2_retry_policy.2.2.2.1
      (fun n => if n = 1 then Except.error (.readErr "middle bytes" "flaky")
        else Except.ok "digest")
      (.readErr "middle bytes" "flaky") "digest" rfl (by decide) rfl,
   c2_retry_policy.2.2.2.2 (fun _ => Except.ok "digest") "digest" rfl⟩

/-! ### C6: record parsing -/

theorem findTwoSpaces_none {l : List Char} (h : findTwoSpaces l = none) :
    ∀ j, ¬ twoSpacesAt l j := by
  induction l with
  | nil => intro j hj; simp [twoSpacesAt] at hj
  | cons a rest ih =>
    cases rest with
    | nil =>
      intro j hj
      obtain ⟨h1, h2⟩ := hj
      cases j with
      | zero => simp at h2
      | succ j => simp at h1
    | cons b rest2 =>
      rw [findTwoSpaces] at h
      split at h
      · exact absurd h (by simp)
      · next hne =>
        intro j hj
        cases j with
        | zero =>
          obtain ⟨h1, h2⟩ := hj
          simp at h1 h2
          exact hne ⟨h1, h2⟩
        | succ j =>
          obtain ⟨h1, h2⟩ := hj
          rw [List.getElem?_cons_succ] at h1 h2
          have hnone : findTwoSpaces (b :: rest2) = none := by
            cases hfb : findTwoSpaces (b :: rest2) with
            | none => rfl
            | some k => rw [hfb] at h; simp at h
          exact ih hnone j ⟨h1, h2⟩

theorem findTwoSpaces_some {l : List Char} {i : Nat}
    (h : findTwoSpaces l = some i) :
    twoSpacesAt l i ∧ ∀ j < i, ¬ twoSpacesAt l j := by
  induction l generalizing i with
  | nil => simp [findTwoSpaces] at h
  | cons a rest ih =>
    cases rest with
    | nil => simp [findTwoSpaces] at h
    | cons b rest2 =>
      rw [findTwoSpaces] at h
      split at h
      · next hsp =>
        have h0 : i = 0 := by simpa using h.symm
        subst h0
        refine ⟨⟨by simpa using hsp.1, by simpa using hsp.2⟩, ?_⟩
        intro j hj
        omega
      · next hne =>
        cases hfb : findTwoSpaces (b :: rest2) with
        | none => rw [hfb] at h; simp at h
        | some k =>
          rw [hfb] at h
          simp at h
          obtain ⟨⟨hk1, hk2⟩, hmin⟩ := ih hfb
          subst h
          refine ⟨⟨by simpa using hk1, by simpa using hk2⟩, ?_⟩
          intro j hj
          cases j with
          | zero =>
            intro hts
            obtain ⟨h1, h2⟩ := hts
            simp at h1 h2
            exact hne ⟨h1, h2⟩
          | succ j =>
            intro hts
            obtain ⟨h1, h2⟩ := hts
            rw [List.getElem?_cons_succ] at h1 h2
            exact hmin j (by omega) ⟨h1, h2⟩

/-- `split_line` fails exactly on lines with no double-space separator. -/
theorem split_line_none_iff (l : List Char) :
    split_line l = none ↔ ∀ j, ¬ twoSpacesAt l j := by
  constructor
  · intro hn
    cases hf : findTwoSpaces l with
    | none => exact findTwoSpaces_none hf
    | some k => rw [split_line, hf] at hn; simp at hn
  · intro hall
    cases hf : findTwoSpaces l with
    | none => rw [split_line, hf]
    | some k => exact absurd (findTwoSpaces_some hf).1 (hall k)

/-- C6: record parsing splits at the first occurrence of two consecutive
spaces — the digest is the text before it, the path the text after it —
and returns none exactly when the line has no such separator; the line
"abc123  /data/x.bin" parses to digest "abc123" and path "/data/x.bin". -/
theorem c6_split_line :
    (∀ l : List Char,
      (split_line l = none ↔ ∀ j, ¬ twoSpacesAt l j)
      ∧ (∀ d p, split_line l = some (d, p) →
          twoSpacesAt l d.length
          ∧ (∀ j < d.length, ¬ twoSpacesAt l j)
          ∧ d ++ ' ' :: ' ' :: p = l))
    ∧ split_line "abc123  /data/x.bin".toList =
        some ("abc123".toList, "/data/x.bin".toList) := by
  refine ⟨fun l => ⟨split_line_none_iff l, ?_⟩, by decide⟩
  intro d p hs
  rw [split_line] at hs
  cases hf : findTwoSpaces l with
  | none => rw [hf] at hs; simp at hs
  | some k =>
    rw [hf] at hs
    simp only [Option.some.injEq, Prod.mk.injEq] at hs
    obtain ⟨hd, hp⟩ := hs
    obtain ⟨⟨hk1, hk2⟩, hmin⟩ := findTwoSpaces_some hf
    obtain ⟨hklt, hkel⟩ := List.getElem?_eq_some_iff.mp hk1
    obtain ⟨hklt2, hkel2⟩ := List.getElem?_eq_some_iff.mp hk2
    have hdlen : d.length = k := by
      rw [← hd, List.length_take]
      omega
    subst hd
    subst hp
    rw [hdlen]
    refine ⟨⟨hk1, hk2⟩, hmin, ?_⟩
    have hdk : l.drop k = ' ' :: ' ' :: l.drop (k + 2) := by
      rw [List.drop_eq_getElem_cons hklt, List.drop_eq_getElem_cons hklt2,
        hkel, hkel2]
    calc l.take k ++ ' ' :: ' ' :: (l.drop k).drop 2
        = l.take k ++ l.drop k := by rw [hdk]; rfl
      _ = l := List.take_append_drop k l

/-- Witness for C6 at the record line "abc123  /data/x.bin". -/
theorem c6_split_line_witness :
    twoSpacesAt "abc123  /data/x.bin".toList "abc123".toList.length
    ∧ (∀ j < "abc123".toList.length, ¬ twoSpacesAt "abc123  /data/x.bin".toList j)
    ∧ "abc123".toList ++ ' ' :: ' ' :: "/data/x.bin".toList =
        "abc123  /data/x.bin".toList :=
  (c6_split_line.1 "abc123  /data/x.bin".toList).2 "abc123".toList
    "/data/x.bin".toList (by decide)

/-! ### C5: path remapping -/

theorem path_starts_with_iff (ob p : List String) :
    path_starts_with p ob = true ↔ ∃ s, p = ob ++ s := by
  induction ob generalizing p with
  | nil =>
    constructor
    · intro _; exact ⟨p, rfl⟩
    · intro _
      cases p with
      | nil => rfl
      | cons a as => rfl
  | cons b bs ih =>
    cases p with
    | nil =>
      constructor
      · intro h; exact absurd h (by simp [path_starts_with])
      · rintro ⟨s, hs⟩; simp at hs
    | cons a as =>
      rw [path_starts_with]
      constructor
      · intro h
        obtain ⟨hab, hrest⟩ := by simpa using h
        obtain ⟨s, hs⟩ := (ih as).mp hrest
        exact ⟨s, by rw [hab, hs]; rfl⟩
      · rintro ⟨s, hs⟩
        simp only [List.cons_append, List.cons.injEq] at hs
        obtain ⟨hab, hrest⟩ := hs
        simp [hab, (ih as).mpr ⟨s, hrest⟩]

/-- C5: a target that starts with `old_base` is remapped to `new_base`
followed by the suffix after `old_base`; any other target, and every
target when either base is absent, is returned unchanged; with old base
/old and new base /new, /old/sub/f.txt maps to /new/sub/f.txt while
/other/f.txt is unchanged. -/
theorem c5_remap_path :
    (∀ ob nb s : List String, remap_path (ob ++ s) ob nb = nb ++ s)
    ∧ (∀ p ob nb : List String,
        path_starts_with p ob = false → remap_path p ob nb = p)
    ∧ (∀ ob p : List String, path_starts_with p ob = true ↔ ∃ s, p = ob ++ s)
    ∧ (∀ (p : List String) (onb : Option (List String)), remapOpt none onb p = p)
    ∧ (∀ (p : List String) (oob : Option (List String)), remapOpt oob none p = p)
    ∧ remap_path ["/", "old", "sub", "f.txt"] ["/", "old"] ["/", "new"] =
        ["/", "new", "sub", "f.txt"]
    ∧ remap_path ["/", "other", "f.txt"] ["/", "old"] ["/", "new"] =
        ["/", "other", "f.txt"] := by
  refine ⟨?_, ?_, path_starts_with_iff, ?_, ?_, by decide, by decide⟩
  · intro ob nb s
    rw [remap_path, if_pos ((path_starts_with_iff ob (ob ++ s)).mpr ⟨s, rfl⟩),
      List.drop_left]
  · intro p ob nb h
    rw [remap_path, h]
    rfl
  · intro p onb
    cases onb with
    | none => rfl
    | some nb => rfl
  · intro p oob
    cases oob with
    | none => rfl
    | some ob => rfl

/-- Witness for C5: remapping /old/sub/f.txt under (/old, /new), and the
prefix characterization at that path. -/
theorem c5_remap_path_witness :
    remap_path (["/", "old"] ++ ["sub", "f.txt"]) ["/", "old"] ["/", "new"] =
        ["/", "new"] ++ ["sub", "f.txt"]
    ∧ remap_path ["/", "other", "f.txt"] ["/", "old"] ["/", "new"] =
        ["/", "other", "f.txt"]
    ∧ (∃ s, (["/", "old", "sub", "f.txt"] : List String) = ["/", "old"] ++ s) :=
  ⟨c5_remap_path.1 ["/", "old"] ["/", "new"] ["sub", "f.txt"],
   c5_remap_path.2.1 ["/", "other", "f.txt"] ["/", "old"] ["/", "new"] (by decide),
   (c5_remap_path.2.2.1 ["/", "old"] ["/", "old", "sub", "f.txt"]).mp (by decide)⟩

/-! ### C7: malformed lines need no hashing -/

/-- C7: a verify line without a double-space separator yields the fixed
malformed-line failure; the outcome is identical for every hash function,
so no file I/O or hash computation is attempted, and it counts as failed. -/
theorem c7_malformed_skips_hashing
    (l : List Char) (hashFn hashFn2 : List Char → Except String String)
    (h : ∀ j, ¬ twoSpacesAt l j) :
    processLine hashFn l = ([], l, Except.error "Malformed line")
    ∧ processLine hashFn l = processLine hashFn2 l
    ∧ countsAsFailed (processLine hashFn l).1 (processLine hashFn l).2.2 = true := by
  have hnone : split_line l = none := (split_line_none_iff l).mpr h
  refine ⟨?_, ?_, ?_⟩ <;> simp [processLine, hnone, countsAsFailed]

/-- Witness for C7: the line "nodigest" (no separator) under two different
hash oracles. -/
theorem c7_malformed_skips_hashing_witness :
    processLine (fun _ => Except.ok "x") "nodigest".toList =
        ([], "nodigest".toList, Except.error "Malformed line")
    ∧ processLine (fun _ => Except.ok "x") "nodigest".toList =
        processLine (fun _ => Except.error "io") "nodigest".toList
    ∧ countsAsFailed (processLine (fun _ => Except.ok "x") "nodigest".toList).1
        (processLine (fun _ => Except.ok "x") "nodigest".toList).2.2 = true :=
  c7_malformed_skips_hashing "nodigest".toList (fun _ => Except.ok "x")
    (fun _ => Except.error "io") (findTwoSpaces_none (by decide))

/-! ### C10: line preprocessing -/

/-- C10: verify mode trims each input line and discards lines empty after
trimming, so each processed line is the trimmed form of an input line, the
reported total counts exactly the lines that are non-empty after trimming,
and a record whose path has trailing whitespace is parsed to an altered
path (shown on "abc123  /data/x.bin "). -/
theorem c10_line_preprocessing :
    (∀ raw : List (List Char),
      (∀ l, l ∈ preprocessLines raw → l ≠ [] ∧ ∃ r ∈ raw, rustTrim r = l)
      ∧ (preprocessLines raw).length =
          (raw.filter (fun r => !(rustTrim r).isEmpty)).length
      ∧ (∀ r, r ∈ raw → rustTrim r ≠ [] → rustTrim r ∈ preprocessLines raw))
    ∧ preprocessLines ["  ".toList, "".toList] = []
    ∧ split_line (rustTrim "abc123  /data/x.bin ".toList) =
        some ("abc123".toList, "/data/x.bin".toList)
    ∧ "/data/x.bin".toList ≠ "/data/x.bin ".toList := by
  refine ⟨fun raw => ⟨?_, ?_, ?_⟩, by decide, by decide, by decide⟩
  · intro l hl
    rw [preprocessLines, List.mem_filter] at hl
    obtain ⟨hmem, hne⟩ := hl
    obtain ⟨r, hr, hrt⟩ := List.mem_map.mp hmem
    refine ⟨?_, r, hr, hrt⟩
    intro hnil
    rw [hnil] at hne
    simp at hne
  · rw [preprocessLines, List.filter_map, List.length_map]
    rfl
  · intro r hr hne
    rw [preprocessLines, List.mem_filter]
    refine ⟨List.mem_map.mpr ⟨r, hr, rfl⟩, ?_⟩
    simpa using hne

/-- Witness for C10: a two-line input whose first line survives trimming
and whose second is discarded. -/
theorem c10_line_preprocessing_witness :
    (rustTrim " a ".toList ≠ []
      ∧ rustTrim " a ".toList ∈ preprocessLines [" a ".toList, " ".toList])
    ∧ (preprocessLines [" a ".toList, " ".toList]).length =
        (([" a ".toList, " ".toList]).filter
          (fun r => !(rustTrim r).isEmpty)).length :=
  ⟨⟨by decide,
    (c10_line_preprocessing.1 [" a ".toList, " ".toList]).2.2 " a ".toList
      (by decide) (by decide)⟩,
   (c10_line_preprocessing.1 [" a ".toList, " ".toList]).2.1⟩

/-! ### C4: order-preserving parallel execution -/

theorem scatterStep_length {α β : Type} (items : List α) (f : α → β)
    (buf : List (Option β)) (i : Nat) :
    (scatterStep items f buf i).length = buf.length := by
  rw [scatterStep]
  cases items[i]? <;> simp

theorem scatterFold_length {α β : Type} (items : List α) (f : α → β) :
    ∀ (order : List Nat) (buf : List (Option β)),
      (order.foldl (scatterStep items f) buf).length = buf.length := by
  intro order
  induction order with
  | nil => intro buf; rfl
  | cons j rest ih =>
    intro buf
    rw [List.foldl_cons, ih, scatterStep_length]

theorem scatterStep_preserve {α β : Type} (items : List α) (f : α → β)
    {buf : List (Option β)} {i : Nat} {a : α} (hi : items[i]? = some a)
    (hbuf : buf[i]? = some (some (f a))) (j : Nat) :
    (scatterStep items f buf j)[i]? = some (some (f a)) := by
  rw [scatterStep]
  cases hj : items[j]? with
  | none => exact hbuf
  | some b =>
    by_cases hij : i = j
    · subst hij
      rw [hi] at hj
      injection hj with hab
      subst hab
      have hilt : i < buf.length := (List.getElem?_eq_some_iff.mp hbuf).1
      rw [List.getElem?_set_self hilt]
    · rw [List.getElem?_set_ne (fun he => hij he.symm)]
      exact hbuf

theorem scatterFold_preserve {α β : Type} (items : List α) (f : α → β)
    {i : Nat} {a : α} (hi : items[i]? = some a) :
    ∀ (order : List Nat) (buf : List (Option β)),
      buf[i]? = some (some (f a)) →
      (order.foldl (scatterStep items f) buf)[i]? = some (some (f a)) := by
  intro order
  induction order with
  | nil => intro buf hbuf; exact hbuf
  | cons j rest ih =>
    intro buf hbuf
    rw [List.foldl_cons]
    exact ih _ (scatterStep_preserve items f hi hbuf j)

theorem scatterFold_mem {α β : Type} (items : List α) (f : α → β)
    {i : Nat} {a : α} (hi : items[i]? = some a) :
    ∀ (order : List Nat) (buf : List (Option β)),
      buf.length = items.length → i ∈ order →
      (order.foldl (scatterStep items f) buf)[i]? = some (some (f a)) := by
  intro order
  induction order with
  | nil => intro buf _ hmem; simp at hmem
  | cons j rest ih =>
    intro buf hlen hmem
    rw [List.foldl_cons]
    by_cases hij : i = j
    · subst hij
      apply scatterFold_preserve items f hi
      rw [scatterStep, hi]
      have hilt : i < buf.length := by
        rw [hlen]
        exact (List.getElem?_eq_some_iff.mp hi).1
      rw [List.getElem?_set_self hilt]
    · have hmem2 : i ∈ rest := by
        cases List.mem_cons.mp hmem with
        | inl h => exact absurd h hij
        | inr h => exact h
      exact ih (scatterStep items f buf j)
        (by rw [scatterStep_length, hlen]) hmem2

/-- C4: whenever the completion schedule covers every index, the scattered
parallel results equal the sequential map of the per-item function in input
order (hence exactly N results, position-matched); and the result at any
position depends only on the item at that position, so one item's failure
cannot alter another's result. -/
theorem c4_parallel_order_preserved :
    (∀ (α β : Type) (items : List α) (f : α → β) (order : List Nat),
        (parRun items f order).length = items.length)
    ∧ (∀ (α β : Type) (items : List α) (f : α → β) (order : List Nat),
        (∀ i, i < items.length → i ∈ order) →
        parRun items f order = (items.map f).map some)
    ∧ (∀ (α β : Type) (f : α → β) (items1 items2 : List α) (i : Nat),
        items1[i]? = items2[i]? →
        (items1.map f)[i]? = (items2.map f)[i]?) := by
  refine ⟨?_, ?_, ?_⟩
  · intro α β items f order
    rw [parRun, scatterFold_length, List.length_replicate]
  · intro α β items f order hcover
    apply List.ext_getElem?
    intro n
    by_cases hn : n < items.length
    · have hitem : items[n]? = some items[n] :=
        List.getElem?_eq_some_iff.mpr ⟨hn, rfl⟩
      rw [parRun, scatterFold_mem items f hitem order _
          (by rw [List.length_replicate]) (hcover n hn)]
      rw [List.getElem?_map, List.getElem?_map, hitem]
      rfl
    · have h1 : (parRun items f order)[n]? = none := by
        apply List.getElem?_eq_none
        rw [parRun, scatterFold_length, List.length_replicate]
        omega
      have h2 : ((items.map f).map some)[n]? = none := by
        apply List.getElem?_eq_none
        simp only [List.length_map]
        omega
      rw [h1, h2]
  · intro α β f items1 items2 i h
    rw [List.getElem?_map, List.getElem?_map, h]

/-- Witness for C4: three items under the completion schedule 2, 0, 1, and
two item lists that agree at position 1. -/
theorem c4_parallel_order_preserved_witness :
    (∀ i, i < [10, 20, 30].length → i ∈ [2, 0, 1])
    ∧ parRun [10, 20, 30] (fun n => n + 1) [2, 0, 1] =
        (([10, 20, 30].map (fun n => n + 1)).map some)
    ∧ ([1, 2].map (fun n => n * 2))[1]? = ([9, 2].map (fun n => n * 2))[1]? :=
  ⟨by decide,
   c4_parallel_order_preserved.2.1 Nat Nat [10, 20, 30] (fun n => n + 1) [2, 0, 1]
     (by decide),
   c4_parallel_order_preserved.2.2 Nat Nat (fun n => n * 2) [1, 2] [9, 2] 1
     (by decide)⟩

end Gustasum
